import Mathlib

/-
Verification of the rule-based topic matching engine
(src/demo_2025/rule_based_topic_matching.py).

The code is shallowly embedded here: each Lean definition mirrors one Python
function of the source, at the lines cited in its doc comment.  Match scores
come from rapidfuzz (fuzz.partial_ratio), an external library; functions that
consume scores are therefore parameterised by a `scorer : String → String → ℚ`
argument standing for the library call, and nothing below depends on the
numeric values the library returns except where a theorem says so explicitly.
-/

namespace RB

/-- The dictionary built by `tag_exact` (lines 80–89), `tag_fuzzy`
(lines 143–152) and `create_control_tags` (lines 241–251): one record of
per-tier match metadata for one document.  `score` is always `None` in the
source, kept here as an `Option ℚ` field. -/
structure TagDict where
  work_id : String
  section_id : List Nat
  tag : List String
  score : Option ℚ
  snippet : List String
  tagger : String
  strength : String
deriving DecidableEq

/-- The keys of the dict literally written at lines 143–152 of `tag_fuzzy`
(the `flag_for_zs` entry at line 151 is commented out in the source, so it is
not among them). -/
def tag_fuzzy_dict_keys : List String :=
  ["work_id", "section_id", "tag", "score", "snippet", "tagger", "strength"]

/-- Python's `re` word character for the ASCII text this pipeline processes:
`[a-zA-Z0-9_]`. -/
def isWordChar (c : Char) : Bool := c.isAlphanum || c = '_'

/-- Whether position `i` of `s` holds a word character (out of range counts as
a non-word position, as at the ends of the string). -/
def wordAt (s : List Char) (i : Nat) : Bool :=
  match s[i]? with
  | some c => isWordChar c
  | none => false

/-- The regex `\b` assertion at position `i` of `s`: exactly one of the two
neighbouring positions holds a word character. -/
def boundaryAt (s : List Char) (i : Nat) : Bool :=
  (if i = 0 then false else wordAt s (i - 1)) != wordAt s i

/-- Whether the literal `t` occurs at the front of `s`. -/
def startsWithLit : List Char → List Char → Bool
  | [], _ => true
  | _ :: _, [] => false
  | c :: cs, d :: ds => c == d && startsWithLit cs ds

/-- One alternative of the pattern `\b(t1|t2|…)\b` matching at position `i`:
`\b` holds before the literal, the literal occurs there, and `\b` holds after
it. -/
def matchAltAt (s : List Char) (i : Nat) (t : List Char) : Bool :=
  boundaryAt s i && startsWithLit t (List.drop i s) && boundaryAt s (i + t.length)

/-- The regex alternation tries the alternatives left to right and the first
one that matches at `i` wins (Python `re` semantics). -/
def findAltAt (alts : List (List Char)) (s : List Char) (i : Nat) : Option (List Char) :=
  alts.find? (fun t => matchAltAt s i t)

/-- The scan loop of `Pattern.finditer` for the compiled alternation
`\b(t1|t2|…)\b`: leftmost matches, non-overlapping (the scan resumes at the
end of each match), starting at position `i`.  `fuel` is an upper bound on the
number of scan steps (the position advances at every step; the alternatives in
this repository's usage are non-empty literals, and the `max … 1` mirrors that
a zero-width match cannot stall the scan). -/
def scanFrom (alts : List (List Char)) (s : List Char) : Nat → Nat → List (List Char)
  | 0, _ => []
  | fuel + 1, i =>
    if s.length ≤ i then []
    else
      match findAltAt alts s i with
      | some t => t :: scanFrom alts s fuel (i + max t.length 1)
      | none => scanFrom alts s fuel (i + 1)

/-- `[m.group() for m in all_topics.finditer(sentence, pos)]` (line 71) for the
pattern `re.compile(r"\b(" + "|".join(topic) + r")\b")` of line 60, when
`topic` is a list of literal surface forms.  `m.group()` is the matched
alternative's text. -/
def finditer_literal (topic : List String) (sentence : String) (pos : Nat) : List String :=
  (scanFrom (topic.map String.toList) sentence.toList (sentence.toList.length + 1) pos).map
    (fun t => String.mk t)

/-- Python's `re.IGNORECASE` flag has numeric value 2.  Line 71 passes it as
the second positional argument of `Pattern.finditer`, which is `pos`, the
start position of the scan — not a flags argument. -/
def RE_IGNORECASE : Nat := 2

/-- `tag_exact` (lines 46–91), for the `isinstance(topic, list)` branch of
line 59 (the claims under verification all supply the topic as a list of
literal surface forms; the single-string branch compiles the string as a raw
regex and is not modelled).  For each sentence holding matches, the snippet is
repeated per match, the matched texts are appended, and the section id is
`body_text.index(sentence) + 1` — the 1-based index of the *first* occurrence
of that sentence text (line 77). -/
def tag_exact (topic : List String) (work_id : String) (body_text : List String) : TagDict :=
  let step := fun (acc : List Nat × List String × List String) (sentence : String) =>
    let exact_match_in_sentence := finditer_literal topic sentence RE_IGNORECASE
    if exact_match_in_sentence.isEmpty then acc
    else
      (acc.1 ++ List.replicate exact_match_in_sentence.length (body_text.indexOf sentence + 1),
       acc.2.1 ++ exact_match_in_sentence,
       acc.2.2 ++ List.replicate exact_match_in_sentence.length sentence)
  let res := body_text.foldl step ([], [], [])
  { work_id := work_id, section_id := res.1, tag := res.2.1, score := none,
    snippet := res.2.2, tagger := "exact", strength := "exact" }

/-- Python `str.lower` for the ASCII text this pipeline processes. -/
def py_lower (s : String) : String := String.mk (s.data.map Char.toLower)

/-- The band test of line 180:
`(match_results <= upper_threshold) & (match_results > lower_threshold)`. -/
def in_band (score lower upper : ℚ) : Bool :=
  decide (score ≤ upper) && decide (lower < score)

/-- `get_fuzzy_matches_at_threshold` (lines 157–195).  `scorer` stands for
rapidfuzz's `fuzz.partial_ratio`; `process.cdist(body_text_lc, topic_list,
scorer=fuzz.partial_ratio)` scores every (sentence, surface form) pair, with
the sentences lower-cased at line 173 and the surface forms passed as given.
`np.where` lists the in-band index pairs in row-major order; the three
returned lists are the matched surface forms, the original-case sentences and
the 1-based sentence indices, in that order. -/
def get_fuzzy_matches_at_threshold (scorer : String → String → ℚ)
    (body_text topic : List String) (lower_threshold upper_threshold : ℚ) :
    List String × List String × List Nat :=
  let body_text_lc := body_text.map py_lower
  let hits := (List.range body_text.length).flatMap (fun i =>
    (List.range topic.length).filterMap (fun j =>
      if in_band (scorer (body_text_lc.getD i "") (topic.getD j ""))
          lower_threshold upper_threshold
      then some (i, j) else none))
  (hits.map (fun p => topic.getD p.2 ""),
   hits.map (fun p => body_text.getD p.1 ""),
   hits.map (fun p => p.1 + 1))

/-- The threshold dict of line 451:
`{"strong": [87.5, 100], "weak": [80, 87.5]}` ("strong" and "weak" are the
only keys the source ever looks up). -/
def fuzzy_thresholds (strength : String) : ℚ × ℚ :=
  if strength = "strong" then (87.5, 100) else (80, 87.5)

/-- Python's substring containment `pat in s` on lists of characters. -/
def containsSub : List Char → List Char → Bool
  | s, pat =>
    if startsWithLit pat s then true
    else
      match s with
      | [] => false
      | _ :: s' => containsSub s' pat

/-- Python's `pat in s` on strings: `pat` occurs contiguously in `s`
(case-sensitive; the empty pattern is contained in every string). -/
def strContains (s pat : String) : Bool := containsSub s.toList pat.toList

/-- `create_control_tags` (lines 205–253).  On the weak path, line 232 reads
`strong_fuzzy_tags.get("matches")`: the dict built by `tag_fuzzy` has only the
keys `tag_fuzzy_dict_keys`, so the lookup yields `None`, and `None != []`
holds — `found_strong_fuzzy_match` is true whenever this branch runs (in
`main`, `strong_fuzzy_tags` is always that non-empty, hence truthy, dict).
The final Python branch is `elif found_strong_fuzzy_match and exact_tags:`;
`exact_tags` is a non-empty dict, always truthy, so the three branches are
exhaustive here.  The synthesized mixed dict of lines 241–251 carries no
`score` key in the source; it is modelled with `score := none`. -/
def create_control_tags (found_exact_match : Bool) (exact_tags : TagDict)
    (strong_fuzzy_tags : TagDict) (work_id : String) (strength : String) :
    Bool × TagDict :=
  if strength = "strong" then
    (found_exact_match, exact_tags)
  else
    let found_strong_fuzzy_match := true
    let found_control_match := found_exact_match || found_strong_fuzzy_match
    if found_exact_match && !found_strong_fuzzy_match then
      (found_control_match, exact_tags)
    else if found_strong_fuzzy_match && !found_exact_match then
      (found_control_match, strong_fuzzy_tags)
    else
      (found_control_match,
        { work_id := work_id,
          section_id := exact_tags.section_id ++ strong_fuzzy_tags.section_id,
          tag := exact_tags.tag ++ strong_fuzzy_tags.tag,
          score := none,
          snippet := exact_tags.snippet ++ strong_fuzzy_tags.snippet,
          tagger := "mixed",
          strength := "mixed" })

/-- `tag_redundant_matches` (lines 256–296).  `comparison_tags` is the current
tier's tag list; when it is non-empty and a control match was found, every
control tag is compared with every comparison tag, and a comparison tag that
contains the control tag as a substring flags position
`comparison_tags.index(compare)` — the *first* occurrence of that tag text
(line 294).  The redundant `compare in comparison_tags` test of line 293 is
kept. -/
def tag_redundant_matches (control_tags : TagDict) (comparison_tags : List String)
    (found_control_match : Bool) : List Bool :=
  let flag_for_zeroshot := List.replicate comparison_tags.length false
  if comparison_tags ≠ [] ∧ found_control_match = true then
    control_tags.tag.foldl
      (fun flags control =>
        comparison_tags.foldl
          (fun fl compare =>
            if strContains compare control && comparison_tags.contains compare then
              fl.set (comparison_tags.indexOf compare) true
            else fl)
          flags)
      flag_for_zeroshot
  else flag_for_zeroshot

/-- The local `flag_for_zeroshot` of `tag_fuzzy` (lines 115–141): the
substring-based flags, overridden by `[True]` when the strong tier and the
exact tier both found nothing, and by `[True] * len(tag_list)` when the tier
is weak and found candidates. -/
def tag_fuzzy_flag_for_zeroshot (scorer : String → String → ℚ) (work_id : String)
    (body_text : List String) (exact_tags strong_fuzzy_tags : TagDict)
    (strength : String) (topic : List String) (fuzzy_thr : String → ℚ × ℚ) :
    List Bool :=
  let found_exact_match := decide (exact_tags.tag ≠ [])
  let r := get_fuzzy_matches_at_threshold scorer body_text topic
    (fuzzy_thr strength).1 (fuzzy_thr strength).2
  let tag_list := r.1
  let p := create_control_tags found_exact_match exact_tags strong_fuzzy_tags
    work_id strength
  let flag_for_zeroshot := tag_redundant_matches p.2 tag_list p.1
  if tag_list = [] ∧ found_exact_match = false ∧ strength = "strong" then
    [true]
  else if strength = "weak" ∧ tag_list ≠ [] then
    List.replicate tag_list.length true
  else
    flag_for_zeroshot

/-- `tag_fuzzy` (lines 94–154): the dict it returns (lines 143–152).  The flag
list above is computed at lines 126–141 of the source but not written into the
dict — the `flag_for_zs` entry at line 151 is commented out — so the returned
record carries no flag field. -/
def tag_fuzzy (scorer : String → String → ℚ) (work_id : String)
    (body_text : List String) (exact_tags strong_fuzzy_tags : TagDict)
    (strength : String) (topic : List String) (fuzzy_thr : String → ℚ × ℚ) :
    TagDict :=
  let r := get_fuzzy_matches_at_threshold scorer body_text topic
    (fuzzy_thr strength).1 (fuzzy_thr strength).2
  { work_id := work_id, section_id := r.2.2, tag := r.1, score := none,
    snippet := r.2.1, tagger := "fuzzy", strength := strength }

/-- One row of the exploded corpus-wide match table that `clean_rb_tags`
receives after line 326 (`pd.DataFrame(tags).explode([...])`): one row per
individual match.  A tier that found nothing contributes a row whose exploded
fields are null — `tag = none` here; such rows are discarded at line 328
before any other field of theirs is consulted, so the remaining fields are
total. -/
structure Row where
  work_id : String
  section_id : Nat
  tag : Option String
  score : Option ℚ
  snippet : String
  tagger : String
  strength : String
deriving DecidableEq

/-- A row of the canonical output table: the same columns plus the
`model = "rule_based"` provenance column added at line 343. -/
structure OutRow extends Row where
  model : String
deriving DecidableEq

/-- The nested `np.where` of lines 331–339: `rel_strength` is 1 for exact, 2
for strong, 3 for weak and 4 otherwise (in particular for mixed). -/
def strength_rank (s : String) : Nat :=
  if s = "exact" then 1
  else if s = "strong" then 2
  else if s = "weak" then 3
  else 4

/-- The `rel_strength` column of a row. -/
def rel_strength (r : Row) : Nat := strength_rank r.strength

/-- The grouping key of line 340: `(work_id, section_id, tag)`. -/
def Row.key (r : Row) : String × Nat × Option String :=
  (r.work_id, r.section_id, r.tag)

/-- Line 343: every surviving row gets `model = "rule_based"`. -/
def addModel (r : Row) : OutRow := { toRow := r, model := "rule_based" }

/-- The rows of the table sharing the grouping key `k`. -/
def groupOf (t : List Row) (k : String × Nat × Option String) : List Row :=
  t.filter (fun r => decide (r.key = k))

/-- The group's minimum `rel_strength` (pandas `GroupBy.min`; every group this
is applied to is non-empty, so the `getD` default is never consulted). -/
def groupMin (t : List Row) (k : String × Nat × Option String) : Nat :=
  (((groupOf t k).map rel_strength).min?).getD 0

/-- Lines 340–341: `shrink` maps each distinct key of the table to its group's
minimum rank (pandas sorts the keys; the claims under verification are about
the table's content, so first-occurrence key order stands in for sorted
order). -/
def shrinkTable (t : List Row) : List ((String × Nat × Option String) × Nat) :=
  ((t.map Row.key).dedup).map (fun k => (k, groupMin t k))

/-- Line 342: `shrink.merge(tags_df, how="left")` joins on the shared columns
`work_id, section_id, tag, rel_strength`, keeping exactly the rows of the
table whose rank equals their group's minimum. -/
def mergeKept (t : List Row) (sh : List ((String × Nat × Option String) × Nat)) :
    List Row :=
  sh.flatMap (fun km =>
    t.filter (fun r => decide (r.key = km.1) && decide (rel_strength r = km.2)))

/-- `clean_rb_tags` (lines 299–346) from the exploded table on: drop rows
whose tag is null (line 328), keep per key only the rows at the group's
minimum rank (lines 331–342), add the `model` column (line 343; the
`rel_strength` helper column is dropped at line 344), and remove fully
identical rows (`drop_duplicates`, line 345). -/
def clean_rb_tags (table : List Row) : List OutRow :=
  let tags_df := table.filter (fun r => r.tag.isSome)
  let shrink := shrinkTable tags_df
  let merged := mergeKept tags_df shrink
  (merged.map addModel).dedup

/-- The end-to-end scenario document `W1` of the spec. -/
def W1_body : List String :=
  ["We used Census Data from 2020.", "No topic mentioned here.",
   "Census Data was cited again."]

/-- A tag dict with empty match lists (a document in which a tier found
nothing). -/
def noTags : TagDict :=
  { work_id := "W9", section_id := [], tag := [], score := none, snippet := [],
    tagger := "exact", strength := "exact" }

/-- A strong-tier dict with empty match lists. -/
def noStrongTags : TagDict :=
  { work_id := "W9", section_id := [], tag := [], score := none, snippet := [],
    tagger := "fuzzy", strength := "strong" }

/-- A control dict whose only tag is "Census Data". -/
def ctlA : TagDict :=
  { work_id := "W1", section_id := [1], tag := ["Census Data"], score := none,
    snippet := ["We used Census Data from 2020."], tagger := "exact",
    strength := "exact" }

/-- Sample exact-strength row. -/
def r_ex : Row :=
  { work_id := "W1", section_id := 1, tag := some "Census Data", score := none,
    snippet := "We used Census Data from 2020.", tagger := "exact",
    strength := "exact" }

/-- Sample weak-strength row at the same key as `r_ex`. -/
def r_weak : Row :=
  { work_id := "W1", section_id := 1, tag := some "Census Data", score := none,
    snippet := "We used Census Data from 2020.", tagger := "fuzzy",
    strength := "weak" }

/-- Sample table holding the same mention at two strengths. -/
def tableA : List Row := [r_ex, r_weak]

/-- Sample single-row table. -/
def tableB : List Row := [r_weak]

/-- Constant scorer used to instantiate scorer-parameterised theorems. -/
def scorer85 : String → String → ℚ := fun _ _ => 85

/-- An integer-valued threshold table used to instantiate
threshold-parameterised theorems on inputs the kernel can evaluate. -/
def thrW : String → ℚ × ℚ := fun _ => (80, 90)

/- ------------------------------------------------------------------ -/
/- Helper lemmas                                                      -/
/- ------------------------------------------------------------------ -/

/-- `List.min?` on naturals finds a member below every member. -/
lemma min?_nat_iff (l : List Nat) (m : Nat) :
    l.min? = some m ↔ m ∈ l ∧ ∀ b ∈ l, m ≤ b :=
  List.min?_eq_some_iff (fun a => le_refl a) (fun a b => min_choice a b)
    (fun _ _ _ => le_min_iff)

/-- A row of the table attains its group's minimum rank exactly when its rank
is below the rank of every row of the table sharing its key. -/
lemma rel_eq_groupMin_iff {t : List Row} {r : Row} (hr : r ∈ t) :
    rel_strength r = groupMin t r.key ↔
      ∀ r2 ∈ t, r2.key = r.key → rel_strength r ≤ rel_strength r2 := by
  have hrg : r ∈ groupOf t r.key :=
    List.mem_filter.mpr ⟨hr, by simp⟩
  have hmem : rel_strength r ∈ (groupOf t r.key).map rel_strength :=
    List.mem_map.mpr ⟨r, hrg, rfl⟩
  constructor
  · intro h r2 h2 hkey
    cases hmin : ((groupOf t r.key).map rel_strength).min? with
    | none =>
      rw [List.min?_eq_none_iff] at hmin
      rw [hmin] at hmem
      exact absurd hmem (List.not_mem_nil _)
    | some m =>
      obtain ⟨-, hlb⟩ := (min?_nat_iff _ _).mp hmin
      have h2g : r2 ∈ groupOf t r.key := List.mem_filter.mpr ⟨h2, by simp [hkey]⟩
      have : rel_strength r = m := by rw [h, groupMin, hmin]; rfl
      rw [this]
      exact hlb _ (List.mem_map.mpr ⟨r2, h2g, rfl⟩)
  · intro h
    have hlb : ∀ b ∈ (groupOf t r.key).map rel_strength, rel_strength r ≤ b := by
      intro b hb
      obtain ⟨r2, h2g, rfl⟩ := List.mem_map.mp hb
      obtain ⟨h2t, h2k⟩ := List.mem_filter.mp h2g
      exact h r2 h2t (by simpa using h2k)
    have : ((groupOf t r.key).map rel_strength).min? = some (rel_strength r) :=
      (min?_nat_iff _ _).mpr ⟨hmem, hlb⟩
    rw [groupMin, this]
    rfl

/-- Membership in the merge of the shrunk table: exactly the rows at their
group's minimum rank. -/
lemma mem_mergeKept_iff {t : List Row} {r : Row} :
    r ∈ mergeKept t (shrinkTable t) ↔
      r ∈ t ∧ rel_strength r = groupMin t r.key := by
  simp only [mergeKept, shrinkTable, List.mem_flatMap, List.mem_map,
    List.mem_dedup, List.mem_filter, Bool.and_eq_true, decide_eq_true_eq]
  constructor
  · rintro ⟨km, ⟨k, hk, rfl⟩, hrt, hkey, hrel⟩
    exact ⟨hrt, by rw [hkey]; exact hrel⟩
  · rintro ⟨hrt, hrel⟩
    exact ⟨(r.key, groupMin t r.key), ⟨r.key, ⟨r, hrt, rfl⟩, rfl⟩, hrt, rfl, hrel⟩

/-- Membership in the canonical table produced by `clean_rb_tags`: exactly the
model-tagged copies of the non-null-tag input rows whose rank is minimal among
the input rows sharing their key. -/
lemma mem_clean_rb_tags {table : List Row} {s : OutRow} :
    s ∈ clean_rb_tags table ↔
      ∃ r, r ∈ table ∧ r.tag.isSome = true ∧
        (∀ r2 ∈ table, r2.tag.isSome = true → r2.key = r.key →
          rel_strength r ≤ rel_strength r2) ∧
        s = addModel r := by
  have h1 : s ∈ clean_rb_tags table ↔
      ∃ r, r ∈ mergeKept (table.filter fun r => r.tag.isSome)
        (shrinkTable (table.filter fun r => r.tag.isSome)) ∧ addModel r = s := by
    simp only [clean_rb_tags, List.mem_dedup, List.mem_map]
  rw [h1]
  constructor
  · rintro ⟨r, hm, rfl⟩
    obtain ⟨hrt1, hrel⟩ := mem_mergeKept_iff.mp hm
    obtain ⟨hrt, hsome⟩ := List.mem_filter.mp hrt1
    refine ⟨r, hrt, hsome, ?_, rfl⟩
    intro r2 h2 h2some hkey
    exact (rel_eq_groupMin_iff hrt1).mp hrel r2 (List.mem_filter.mpr ⟨h2, h2some⟩) hkey
  · rintro ⟨r, hrt, hsome, hmin, rfl⟩
    have hrt1 : r ∈ table.filter fun r => r.tag.isSome :=
      List.mem_filter.mpr ⟨hrt, hsome⟩
    refine ⟨r, mem_mergeKept_iff.mpr ⟨hrt1, ?_⟩, rfl⟩
    refine (rel_eq_groupMin_iff hrt1).mpr ?_
    intro r2 h2 hkey
    obtain ⟨h2t, h2some⟩ := List.mem_filter.mp h2
    exact hmin r2 h2t h2some hkey

/-- Length is preserved by the flag-setting fold of `tag_redundant_matches`. -/
lemma foldl_set_length (p : String → Bool) (idx : String → Nat) :
    ∀ (l : List String) (acc : List Bool),
      (l.foldl (fun fl v => if p v then fl.set (idx v) true else fl) acc).length
        = acc.length := by
  intro l
  induction l with
  | nil => intro acc; rfl
  | cons v l ih =>
    intro acc
    rw [List.foldl_cons, ih]
    by_cases h : p v = true <;> simp [h]

/-- Positions holding `true` after the inner flag-setting fold: those already
`true`, plus the images under `idx` of the in-range selected elements. -/
lemma foldl_set_getElem? (p : String → Bool) (idx : String → Nat) :
    ∀ (l : List String) (acc : List Bool) (i : Nat),
      ((l.foldl (fun fl v => if p v then fl.set (idx v) true else fl) acc)[i]?
          = some true ↔
        (acc[i]? = some true ∨ ∃ v ∈ l, p v = true ∧ idx v = i ∧ i < acc.length)) := by
  intro l
  induction l with
  | nil => intro acc i; simp
  | cons v l ih =>
    intro acc i
    rw [List.foldl_cons, ih]
    by_cases hp : p v = true
    · rw [if_pos hp, List.length_set, List.getElem?_set]
      by_cases hv : idx v = i
      · rw [if_pos hv, hv]
        by_cases hi : i < acc.length
        · rw [if_pos hi]
          simp only [List.mem_cons]
          constructor
          · intro _; right; exact ⟨v, Or.inl rfl, hp, hv, hi⟩
          · intro _; left; trivial
        · rw [if_neg hi]
          have hnone : acc[i]? = none := by
            rw [List.getElem?_eq_none_iff]
            omega
          simp only [List.mem_cons]
          constructor
          · rintro (h | ⟨v', hv', hpv', hidx', hlt'⟩)
            · exact absurd h (by simp)
            · exact absurd hlt' hi
          · rintro (h | ⟨v', hv', hpv', hidx', hlt'⟩)
            · rw [hnone] at h; exact absurd h (by simp)
            · exact absurd hlt' hi
      · rw [if_neg hv]
        simp only [List.mem_cons]
        constructor
        · rintro (h | ⟨v', hv', hpv', hidx', hlt'⟩)
          · left; exact h
          · right; exact ⟨v', Or.inr hv', hpv', hidx', hlt'⟩
        · rintro (h | ⟨v', hv', hpv', hidx', hlt'⟩)
          · left; exact h
          · rcases hv' with rfl | hv'
            · exact absurd hidx' hv
            · right; exact ⟨v', hv', hpv', hidx', hlt'⟩
    · rw [if_neg hp]
      simp only [List.mem_cons]
      constructor
      · rintro (h | ⟨v', hv', hpv', hidx', hlt'⟩)
        · left; exact h
        · right; exact ⟨v', Or.inr hv', hpv', hidx', hlt'⟩
      · rintro (h | ⟨v', hv', hpv', hidx', hlt'⟩)
        · left; exact h
        · rcases hv' with rfl | hv'
          · rw [hpv'] at hp; exact absurd rfl hp
          · right; exact ⟨v', hv', hpv', hidx', hlt'⟩

/-- Positions holding `true` after the nested control/comparison fold. -/
lemma foldl_nested_getElem? (P : String → String → Bool) (idx : String → Nat)
    (comp : List String) :
    ∀ (cs : List String) (acc : List Bool) (i : Nat),
      ((cs.foldl
          (fun flags c =>
            comp.foldl (fun fl v => if P c v then fl.set (idx v) true else fl) flags)
          acc)[i]? = some true ↔
        (acc[i]? = some true ∨
          ∃ c ∈ cs, ∃ v ∈ comp, P c v = true ∧ idx v = i ∧ i < acc.length)) := by
  intro cs
  induction cs with
  | nil => intro acc i; simp
  | cons c cs ih =>
    intro acc i
    rw [List.foldl_cons, ih, foldl_set_getElem? (P c) idx comp acc i,
      foldl_set_length (P c) idx comp acc]
    simp only [List.mem_cons]
    constructor
    · rintro ((h | ⟨v, hv, hpv, hidx, hlt⟩) | ⟨c', hc', v, hv, hpv, hidx, hlt⟩)
      · left; exact h
      · right; exact ⟨c, Or.inl rfl, v, hv, hpv, hidx, hlt⟩
      · right; exact ⟨c', Or.inr hc', v, hv, hpv, hidx, hlt⟩
    · rintro (h | ⟨c', hc', v, hv, hpv, hidx, hlt⟩)
      · left; left; exact h
      · rcases hc' with rfl | hc'
        · left; right; exact ⟨v, hv, hpv, hidx, hlt⟩
        · right; exact ⟨c', hc', v, hv, hpv, hidx, hlt⟩

/-- The singleton-input form of `get_fuzzy_matches_at_threshold`: one sentence
and one surface form yield the match exactly when the score of the pair —
computed from the lower-cased sentence and the surface form as given — lies in
the band. -/
lemma get_fuzzy_singleton (scorer : String → String → ℚ) (s t : String)
    (lo hi : ℚ) :
    get_fuzzy_matches_at_threshold scorer [s] [t] lo hi =
      if in_band (scorer (py_lower s) t) lo hi = true then ([t], [s], [1])
      else ([], [], []) := by
  have h01 : List.range 1 = [0] := rfl
  by_cases hb : in_band (scorer (py_lower s) t) lo hi = true
  · simp [get_fuzzy_matches_at_threshold, h01, List.getD, hb]
  · simp [get_fuzzy_matches_at_threshold, h01, List.getD, hb]

/-- Length is preserved by the nested control/comparison fold. -/
lemma foldl_nested_length (P : String → String → Bool) (idx : String → Nat)
    (comp : List String) :
    ∀ (cs : List String) (acc : List Bool),
      (cs.foldl
          (fun flags c =>
            comp.foldl (fun fl v => if P c v then fl.set (idx v) true else fl) flags)
          acc).length = acc.length := by
  intro cs
  induction cs with
  | nil => intro acc; rfl
  | cons c cs ih =>
    intro acc
    rw [List.foldl_cons, ih, foldl_set_length (P c) idx comp]

/- ------------------------------------------------------------------ -/
/- Claim theorems                                                     -/
/- ------------------------------------------------------------------ -/

/-- Claim C1.  On the spec's end-to-end document `W1` with topic
`["Census Data"]`, the claim expects the exact matcher to emit two candidates,
at sections 1 and 3.  The code emits exactly one, at section 1: line 71 passes
`re.IGNORECASE` (numeric value 2) as `finditer`'s start position, so the match
at position 0 of sentence 3 is never seen. -/
theorem tag_exact_W1_misses_start_match :
    (tag_exact ["Census Data"] "W1" W1_body).tag = ["Census Data"] ∧
    (tag_exact ["Census Data"] "W1" W1_body).section_id = [1] := by
  decide

/-- Claim C2, counterexample.  The dict that `tag_fuzzy` returns carries no
secondary-review flag field: the `flag_for_zs` entry is commented out of the
dict literal, so downstream consumers cannot read the flag from the produced
match records. -/
theorem tag_fuzzy_record_lacks_review_flag :
    "flag_for_secondary_review" ∉ tag_fuzzy_dict_keys ∧
    "flag_for_zs" ∉ tag_fuzzy_dict_keys := by
  decide

/-- Claim C2, amended.  The flag list that `tag_fuzzy` computes internally
(lines 126–141) is `[True] * len(tag_list)` whenever the weak tier's candidate
list is non-empty, whatever the control matches are — but it is only a local
value, never written into the returned record. -/
theorem weak_tier_internal_flags_all_true
    (scorer : String → String → ℚ) (work_id : String) (body_text : List String)
    (exact_tags strong_fuzzy_tags : TagDict) (topic : List String)
    (fuzzy_thr : String → ℚ × ℚ)
    (h : (get_fuzzy_matches_at_threshold scorer body_text topic
        (fuzzy_thr "weak").1 (fuzzy_thr "weak").2).1 ≠ []) :
    tag_fuzzy_flag_for_zeroshot scorer work_id body_text exact_tags
        strong_fuzzy_tags "weak" topic fuzzy_thr =
      List.replicate (get_fuzzy_matches_at_threshold scorer body_text topic
        (fuzzy_thr "weak").1 (fuzzy_thr "weak").2).1.length true := by
  simp only [tag_fuzzy_flag_for_zeroshot]
  rw [if_neg, if_pos]
  · exact ⟨by trivial, h⟩
  · rintro ⟨-, -, hstr⟩
    exact absurd hstr (by decide)

/-- Claim C2, witness for the amended theorem at a concrete weak-band run. -/
theorem weak_tier_internal_flags_all_true_witness :
    (get_fuzzy_matches_at_threshold scorer85 ["Sentence one."] ["Census Data"]
        (thrW "weak").1 (thrW "weak").2).1 ≠ [] ∧
    tag_fuzzy_flag_for_zeroshot scorer85 "W" ["Sentence one."] noTags noStrongTags
        "weak" ["Census Data"] thrW =
      List.replicate (get_fuzzy_matches_at_threshold scorer85 ["Sentence one."]
        ["Census Data"] (thrW "weak").1 (thrW "weak").2).1.length true :=
  ⟨by decide,
    weak_tier_internal_flags_all_true scorer85 "W" ["Sentence one."] noTags
      noStrongTags ["Census Data"] thrW (by decide)⟩

/-- Claim C3.  Deduplication assigns the ranks exact=1, strong=2, weak=3,
mixed=4; the canonical table holds exactly the model-tagged copies of the
non-null-tag input rows whose rank is minimal among the input rows sharing
their `(work_id, section_id, tag)` key — all ties at the minimum retained,
strictly weaker rows discarded — and fully identical rows appear once
(the output has no duplicates). -/
theorem clean_rb_tags_dedup_spec (table : List Row) :
    (strength_rank "exact" = 1 ∧ strength_rank "strong" = 2 ∧
      strength_rank "weak" = 3 ∧ strength_rank "mixed" = 4)
    ∧ (∀ s : OutRow, s ∈ clean_rb_tags table ↔
        ∃ r, r ∈ table ∧ r.tag.isSome = true ∧
          (∀ r2 ∈ table, r2.tag.isSome = true → r2.key = r.key →
            rel_strength r ≤ rel_strength r2) ∧ s = addModel r)
    ∧ (clean_rb_tags table).Nodup := by
  refine ⟨⟨by decide, by decide, by decide, by decide⟩,
    fun s => mem_clean_rb_tags, ?_⟩
  simp only [clean_rb_tags]
  exact List.nodup_dedup _

/-- Claim C4.  The claim expects exact matching to be case-insensitive and to
find matches anywhere in the sentence, including at its start.  The code
compiles the alternation without `re.IGNORECASE` and instead passes the flag's
numeric value 2 as `finditer`'s start position: a match at the start of the
sentence and a match differing only in letter case both produce no
candidate. -/
theorem tag_exact_case_and_position_eval :
    tag_exact ["Census Data"] "w"
        ["Census Data was cited again.", "we used census data here."] =
      { work_id := "w", section_id := [], tag := [], score := none,
        snippet := [], tagger := "exact", strength := "exact" } := by
  decide

/-- Claim C5.  When the same sentence text occurs at two positions, both
matches are reported at the first position: `tag_exact` computes the section
id with `body_text.index(sentence)` (line 77), the index of the first
occurrence, so the candidate found in sentence 2 carries `section_id` 1. -/
theorem tag_exact_duplicate_sentence_section_ids :
    (tag_exact ["Census Data"] "w"
        ["A Census Data here.", "A Census Data here."]).section_id = [1, 1] ∧
    (tag_exact ["Census Data"] "w"
        ["A Census Data here.", "A Census Data here."]).tag =
      ["Census Data", "Census Data"] := by
  decide

/-- Claim C6.  The fuzzy matcher lower-cases the sentence but passes the topic
surface form to the scorer exactly as given: for any scorer, the score that
decides band membership is `scorer "census data was used." "Census Data"` —
the second argument keeps its original case, contrary to the claim that both
sides are lower-cased before scoring. -/
theorem fuzzy_scorer_receives_unlowered_topic (scorer : String → String → ℚ)
    (lo hi : ℚ) :
    get_fuzzy_matches_at_threshold scorer ["Census Data was used."]
        ["Census Data"] lo hi =
      if in_band (scorer "census data was used." "Census Data") lo hi = true
      then (["Census Data"], ["Census Data was used."], [1])
      else ([], [], []) := by
  rw [get_fuzzy_singleton scorer "Census Data was used." "Census Data" lo hi]
  have hl : py_lower "Census Data was used." = "census data was used." := by decide
  rw [hl]

/-- Claim C7.  Resolving the weak tier for a document with no exact matches
and no strong-fuzzy matches: `create_control_tags` still reports
`found_control_match = True` (line 232 reads the nonexistent key `"matches"`,
and `None != []` holds), and hands the empty strong-fuzzy dict back as the
control set — contrary to the claim that `found_control_match` holds iff some
exact or strong-fuzzy match exists. -/
theorem create_control_tags_empty_sets_eval :
    (create_control_tags false noTags noStrongTags "W9" "weak").1 = true ∧
    noTags.tag = [] ∧ noStrongTags.tag = [] ∧
    (create_control_tags false noTags noStrongTags "W9" "weak").2 =
      noStrongTags := by
  decide

/-- Claim C8, counterexample.  With control tag "Census Data" and the
comparison tag "1-year Census Data" occurring at two positions, only the first
occurrence is flagged: `tag_redundant_matches` writes the flag at
`comparison_tags.index(compare)`, the first occurrence of the tag text, so the
duplicate at position 1 stays `False` although its tag contains the control
tag. -/
theorem redundant_flag_duplicate_counterexample :
    tag_redundant_matches ctlA ["1-year Census Data", "1-year Census Data"] true
        = [true, false] ∧
    strContains "1-year Census Data" "Census Data" = true ∧
    "Census Data" ∈ ctlA.tag := by
  decide

/-- Claim C8, amended.  Given a control match, the returned boolean list is
aligned to the candidate list, and position `i` is `True` exactly when it is
the first occurrence of a candidate tag text that contains some control tag as
a substring; later duplicate occurrences of the same tag text, and candidates
containing no control tag, are `False`. -/
theorem tag_redundant_matches_spec (control_tags : TagDict)
    (comparison_tags : List String) :
    (tag_redundant_matches control_tags comparison_tags true).length
        = comparison_tags.length
    ∧ ∀ i : Nat,
      ((tag_redundant_matches control_tags comparison_tags true)[i]?
          = some true ↔
        ∃ v ∈ comparison_tags, comparison_tags.indexOf v = i ∧
          ∃ c ∈ control_tags.tag, strContains v c = true) := by
  by_cases hc : comparison_tags = []
  · subst hc
    constructor
    · simp [tag_redundant_matches]
    · intro i
      simp [tag_redundant_matches]
  · have hcond : comparison_tags ≠ [] ∧ True := ⟨hc, trivial⟩
    have hlen := foldl_nested_length
      (fun c v => strContains v c && comparison_tags.contains v)
      (fun v => comparison_tags.indexOf v) comparison_tags control_tags.tag
      (List.replicate comparison_tags.length false)
    simp only [] at hlen
    constructor
    · simp only [tag_redundant_matches]
      rw [if_pos hcond, hlen, List.length_replicate]
    · intro i
      have hget := foldl_nested_getElem?
        (fun c v => strContains v c && comparison_tags.contains v)
        (fun v => comparison_tags.indexOf v) comparison_tags control_tags.tag
        (List.replicate comparison_tags.length false) i
      simp only [] at hget
      simp only [tag_redundant_matches]
      rw [if_pos hcond, hget]
      constructor
      · rintro (hrep | ⟨c, hc', v, hv, hpc, hidx, hlt⟩)
        · rw [List.getElem?_replicate] at hrep
          split at hrep <;> simp_all
        · rw [Bool.and_eq_true] at hpc
          exact ⟨v, hv, hidx, c, hc', hpc.1⟩
      · rintro ⟨v, hv, hidx, c, hc', hsc⟩
        right
        have hand : (strContains v c && comparison_tags.contains v) = true := by
          rw [Bool.and_eq_true]
          exact ⟨hsc, List.elem_iff.mpr hv⟩
        have hlt : i < (List.replicate comparison_tags.length false).length := by
          rw [List.length_replicate, ← hidx]
          exact List.indexOf_lt_length.mpr hv
        exact ⟨c, hc', v, hv, hand, hidx, hlt⟩

/-- Claim C9.  Band selection: a (sentence, surface form) pair is emitted
exactly when its score is strictly above the lower threshold and at most the
upper threshold; with the run's bands strong = (87.5, 100] and
weak = (80, 87.5], a score of exactly 87.5 falls in the weak band and not in
the strong band, and a score of exactly 100 falls in the strong band. -/
theorem band_boundary_selection :
    (∀ (scorer : String → String → ℚ) (s t : String) (lo hi : ℚ),
        get_fuzzy_matches_at_threshold scorer [s] [t] lo hi =
          if in_band (scorer (py_lower s) t) lo hi = true then ([t], [s], [1])
          else ([], [], []))
    ∧ (∀ score lo hi : ℚ, in_band score lo hi = true ↔ lo < score ∧ score ≤ hi)
    ∧ fuzzy_thresholds "strong" = (87.5, 100)
    ∧ fuzzy_thresholds "weak" = (80, 87.5)
    ∧ in_band 87.5 (fuzzy_thresholds "weak").1 (fuzzy_thresholds "weak").2 = true
    ∧ in_band 87.5 (fuzzy_thresholds "strong").1 (fuzzy_thresholds "strong").2
        = false
    ∧ in_band 100 (fuzzy_thresholds "strong").1 (fuzzy_thresholds "strong").2
        = true := by
  have hs : fuzzy_thresholds "strong" = (87.5, 100) := by
    rw [fuzzy_thresholds, if_pos rfl]
  have hw : fuzzy_thresholds "weak" = (80, 87.5) := by
    rw [fuzzy_thresholds, if_neg (by decide)]
  refine ⟨get_fuzzy_singleton, ?_, hs, hw, ?_, ?_, ?_⟩
  · intro score lo hi
    rw [in_band, Bool.and_eq_true, decide_eq_true_eq, decide_eq_true_eq]
    exact and_comm
  · rw [hw]
    show in_band (87.5 : ℚ) 80 87.5 = true
    rw [in_band, Bool.and_eq_true, decide_eq_true_eq, decide_eq_true_eq]
    norm_num
  · rw [hs]
    show in_band (87.5 : ℚ) 87.5 100 = false
    rw [in_band]
    norm_num
  · rw [hs]
    show in_band (100 : ℚ) 87.5 100 = true
    rw [in_band, Bool.and_eq_true, decide_eq_true_eq, decide_eq_true_eq]
    norm_num

/-- Claim C10.  Deduplication never creates or alters match evidence: every
canonical row agrees with some raw input row on all of work_id, section_id,
tag, score, snippet, tagger and strength, and the only added information is
the constant provenance column `model = "rule_based"`. -/
theorem clean_rb_tags_frame_effect (table : List Row) (s : OutRow)
    (hs : s ∈ clean_rb_tags table) :
    s.model = "rule_based" ∧ ∃ r ∈ table,
      s.work_id = r.work_id ∧ s.section_id = r.section_id ∧ s.tag = r.tag ∧
      s.score = r.score ∧ s.snippet = r.snippet ∧ s.tagger = r.tagger ∧
      s.strength = r.strength := by
  obtain ⟨r, hrt, -, -, rfl⟩ := mem_clean_rb_tags.mp hs
  exact ⟨rfl, r, hrt, rfl, rfl, rfl, rfl, rfl, rfl, rfl⟩

/-- Claim C10, witness at a concrete one-row table. -/
theorem clean_rb_tags_frame_effect_witness :
    (addModel r_weak).model = "rule_based" ∧ ∃ r ∈ tableB,
      (addModel r_weak).work_id = r.work_id ∧
      (addModel r_weak).section_id = r.section_id ∧
      (addModel r_weak).tag = r.tag ∧
      (addModel r_weak).score = r.score ∧
      (addModel r_weak).snippet = r.snippet ∧
      (addModel r_weak).tagger = r.tagger ∧
      (addModel r_weak).strength = r.strength :=
  clean_rb_tags_frame_effect tableB (addModel r_weak) (by decide)

end RB
